import Mathlib

/-!
Verification development for the distributed binary-image denoiser
(src/denoiser.c).  The definitions below are shallow embeddings of the
functions of the source file: pixel matrices are total functions
Int → Int → Int (only in-bounds entries are ever read, guarded exactly as
in the C code), machine integers are modelled as Int or Nat, and the
non-blocking message-passing parts are modelled as explicit state machines
or event traces driven by an environment schedule.
-/

namespace Denoiser

/-- Eight neighbour directions, the first eight members of the MessageType
enumeration of the source. -/
inductive Direction
  | top | right | bottom | left | topRight | bottomRight | bottomLeft | topLeft
  deriving DecidableEq, Repr

instance : Fintype Direction :=
  ⟨⟨[Direction.top, Direction.right, Direction.bottom, Direction.left,
      Direction.topRight, Direction.bottomRight, Direction.bottomLeft,
      Direction.topLeft], by decide⟩, by intro d; cases d <;> decide⟩

/-- Indices visited by one of the two nested for-loops of summer: the loop
runs from center - 1 up to center + 1. -/
def loopIdx (center : Int) : List Int := [center - 1, center, center + 1]

/-- Translation of summer (lines 127-148): sum of subImage over the 3x3
window around the centre, skipping any out-of-bounds index and skipping the
centre cell itself. -/
def summer (subImage : Int → Int → Int) (rows columns rowCenter columnCenter : Int) : Int :=
  ((loopIdx rowCenter).map (fun i =>
    if 0 ≤ i ∧ i < rows then
      ((loopIdx columnCenter).map (fun j =>
        if 0 ≤ j ∧ j < columns then
          if i ≠ rowCenter ∨ j ≠ columnCenter then subImage i j else 0
        else 0)).sum
    else 0)).sum

/-- The 3x3 window sum in the words of the specification: the sum of the
pixels at all indices of the 3x3 window centred at (rc, cc) that lie inside
[0, rows) x [0, columns), the centre itself excluded. -/
def windowSumSpec (img : Int → Int → Int) (rows columns rc cc : Int) : Int :=
  ∑ p ∈ (Finset.Icc (rc - 1) (rc + 1) ×ˢ Finset.Icc (cc - 1) (cc + 1)).filter
      (fun p => (0 ≤ p.1 ∧ p.1 < rows ∧ 0 ≤ p.2 ∧ p.2 < columns) ∧ p ≠ (rc, cc)),
    img p.1 p.2

lemma Icc_triple (a : Int) : Finset.Icc (a - 1) (a + 1) = {a - 1, a, a + 1} := by
  ext x
  simp only [Finset.mem_Icc, Finset.mem_insert, Finset.mem_singleton]
  omega

lemma sum_triple (a : Int) (f : Int → Int) :
    ∑ x ∈ ({a - 1, a, a + 1} : Finset Int), f x = f (a - 1) + f a + f (a + 1) := by
  have h1 : (a : Int) - 1 ∉ ({a, a + 1} : Finset Int) := by
    simp only [Finset.mem_insert, Finset.mem_singleton]
    omega
  have h2 : (a : Int) ∉ ({a + 1} : Finset Int) := by
    simp only [Finset.mem_singleton]
    omega
  rw [show ({a - 1, a, a + 1} : Finset Int) = insert (a - 1) (insert a {a + 1}) from rfl,
    Finset.sum_insert h1, Finset.sum_insert h2, Finset.sum_singleton]
  ring

lemma cell_eq (img : Int → Int → Int) (rows columns rc cc i j : Int) :
    (if (0 ≤ i ∧ i < rows ∧ 0 ≤ j ∧ j < columns) ∧ (i, j) ≠ (rc, cc) then img i j else 0)
      = if 0 ≤ i ∧ i < rows then
          (if 0 ≤ j ∧ j < columns then
            if i ≠ rc ∨ j ≠ cc then img i j else 0
          else 0)
        else 0 := by
  by_cases h1 : 0 ≤ i <;> by_cases h2 : i < rows <;>
    by_cases h3 : 0 ≤ j <;> by_cases h4 : j < columns <;>
    simp [h1, h2, h3, h4, Ne, Prod.mk.injEq, not_and_or, imp_iff_not_or]

lemma ite_add_three (A : Prop) [Decidable A] (x y z : Int) :
    ((if A then x else 0) + (if A then y else 0)) + (if A then z else 0)
      = if A then (x + y) + z else 0 := by
  by_cases h : A <;> simp [h]

/-- The summer function of the source computes exactly the window sum
described by the specification. -/
lemma summer_eq_windowSumSpec (img : Int → Int → Int) (rows columns rc cc : Int) :
    summer img rows columns rc cc = windowSumSpec img rows columns rc cc := by
  unfold windowSumSpec
  rw [Finset.sum_filter, Finset.sum_product, Icc_triple rc, Icc_triple cc]
  rw [sum_triple rc]
  simp only [sum_triple cc]
  simp only [cell_eq img rows columns rc cc]
  simp only [ite_add_three]
  simp [summer, loopIdx]
  ring_nf

/-- Row centre used by answerAll (lines 185-201) to answer a question carrying
the given 1D position arriving from the given direction. -/
def answerRowCenter (rows position : Int) : Direction → Int
  | .top | .topLeft | .topRight => -1
  | .bottom | .bottomLeft | .bottomRight => rows
  | .left | .right => position

/-- Column centre used by answerAll (lines 202-218) to answer a question
carrying the given 1D position arriving from the given direction. -/
def answerColCenter (columns position : Int) : Direction → Int
  | .left | .topLeft | .bottomLeft => -1
  | .right | .topRight | .bottomRight => columns
  | .top | .bottom => position

/-- The ANSWER value computed and sent back by answerAll (line 219-221) for a
question from direction d carrying position p: summer at the virtual off-edge
centre determined by d and p. -/
def answerValue (subImage : Int → Int → Int) (rows columns : Int) (d : Direction) (p : Int) : Int :=
  summer subImage rows columns (answerRowCenter rows p d) (answerColCenter columns p d)

/-- C1: the ANSWER value the worker sends back for an incoming question from
direction d with position p equals the sum of its current tile pixels over the
3x3 window centred at the virtual off-edge coordinates determined by d (row
centre -1 for TOP / TOP_LEFT / TOP_RIGHT, rows for BOTTOM / BOTTOM_LEFT /
BOTTOM_RIGHT, p for LEFT / RIGHT; column centre -1 for LEFT / TOP_LEFT /
BOTTOM_LEFT, columns for RIGHT / TOP_RIGHT / BOTTOM_RIGHT, p for TOP /
BOTTOM), excluding the centre cell itself and excluding every index outside
[0, rows) x [0, columns). -/
theorem answer_matches_window_sum (current : Int → Int → Int) (rows columns : Int)
    (d : Direction) (p : Int) :
    answerValue current rows columns d p =
      windowSumSpec current rows columns (answerRowCenter rows p d) (answerColCenter columns p d) :=
  summer_eq_windowSumSpec current rows columns _ _

/-- RAND_MAX of the C library on the target platform (glibc): 2^31 - 1. -/
def C_RAND_MAX : ℕ := 2147483647

/-- Translation of randomProbability (lines 29-32): rand() yields an integer k
with 0 ≤ k ≤ RAND_MAX and the function returns k / RAND_MAX, a number between
0 and 1.0, both inclusive. -/
def randomProbability (k : ℕ) : ℚ := (k : ℚ) / (C_RAND_MAX : ℚ)

/-- A tile owned by one worker: its dimensions, the immutable observed pixels
(initialSubImage) and the mutable current pixels (subImage). -/
structure Tile where
  rows : Int
  columns : Int
  observed : Int → Int → Int
  current : Int → Int → Int

/-- The flip of line 452: negate the current pixel at (r, c), leaving every
other pixel unchanged. -/
def flipPixel (t : Tile) (r c : Int) : Tile :=
  { t with current := fun i j => if i = r ∧ j = c then -(t.current i j) else t.current i j }

/-- The energy difference of line 446:
deltaE = -2 * gammaValue * initialSubImage[r][c] * subImage[r][c]
         - 2 * beta * subImage[r][c] * sum. -/
noncomputable def deltaE (beta gammaValue : ℝ) (observed current sum : Int) : ℝ :=
  -2 * gammaValue * (observed : ℝ) * (current : ℝ) - 2 * beta * (current : ℝ) * (sum : ℝ)

/-- One iteration of the sampler body (lines 396-453) for the selected pixel
(r, c): the neighbour sum is the local summer value plus the collected remote
answers, and the pixel is flipped exactly when log u ≤ deltaE, where u is the
value returned by randomProbability. -/
noncomputable def iterStep (beta gammaValue : ℝ) (t : Tile) (r c : Int) (remote : Int) (u : ℝ) : Tile :=
  if Real.log u ≤ deltaE beta gammaValue (t.observed r c) (t.current r c)
      (summer t.current t.rows t.columns r c + remote) then
    flipPixel t r c
  else t

/-- A run of the sampler: one iterStep per element of the choice list, each
choice supplying the selected pixel, the collected remote sum and the drawn
random value. -/
noncomputable def runIters (beta gammaValue : ℝ) : Tile → List (Int × Int × Int × ℝ) → Tile
  | t, [] => t
  | t, (r, c, remote, u) :: rest => runIters beta gammaValue (iterStep beta gammaValue t r c remote u) rest

/-- C2 counterexample: the random draw of the source is not confined to
(0, 1]: rand() may return 0, in which case randomProbability returns 0, which
lies outside the interval (0, 1]. -/
theorem randomProbability_attains_zero :
    randomProbability 0 = 0 ∧ (0 : ℚ) ∉ Set.Ioc (0 : ℚ) 1 := by
  constructor
  · simp [randomProbability]
  · simp

/-- C2 (amended): the worker computes
deltaE = -2 * gamma * observed[r,c] * current[r,c] - 2 * beta * current[r,c] * sum
with sum the local 3x3 neighbour sum plus the collected remote answers, draws
u = rand() / RAND_MAX, which lies in [0, 1] with both endpoints attainable,
and flips (negates) current[r,c] exactly when ln(u) ≤ deltaE. -/
theorem flip_iff_log_le_deltaE (beta gammaValue : ℝ) (t : Tile) (r c : Int)
    (remote : Int) (u : ℝ) (k : ℕ)
    (hpm : t.current r c = 1 ∨ t.current r c = -1) (hk : k ≤ C_RAND_MAX) :
    ((iterStep beta gammaValue t r c remote u).current r c = -(t.current r c) ↔
      Real.log u ≤ deltaE beta gammaValue (t.observed r c) (t.current r c)
        (summer t.current t.rows t.columns r c + remote)) ∧
      0 ≤ randomProbability k ∧ randomProbability k ≤ 1 := by
  refine ⟨?_, ?_, ?_⟩
  · unfold iterStep
    split
    · next h =>
      simp only [flipPixel]
      simp [h]
    · next h =>
      constructor
      · intro heq
        rcases hpm with h1 | h1 <;> rw [h1] at heq <;> omega
      · intro hc
        exact absurd hc h
  · unfold randomProbability C_RAND_MAX
    positivity
  · unfold randomProbability
    rw [div_le_one (by norm_num [C_RAND_MAX])]
    exact_mod_cast hk

/-- Closed witness for the amended C2 theorem at a concrete input. -/
def onesTile : Tile := ⟨1, 1, fun _ _ => 1, fun _ _ => 1⟩

theorem flip_iff_log_le_deltaE_witness :
    ((iterStep 1 1 onesTile 0 0 0 1).current 0 0 = -(onesTile.current 0 0) ↔
      Real.log 1 ≤ deltaE 1 1 (onesTile.observed 0 0) (onesTile.current 0 0)
        (summer onesTile.current onesTile.rows onesTile.columns 0 0 + 0)) ∧
      0 ≤ randomProbability 0 ∧ randomProbability 0 ≤ 1 :=
  flip_iff_log_le_deltaE 1 1 onesTile 0 0 0 1 0 (Or.inl rfl) (Nat.zero_le _)

/-- Every pixel of the current matrix is +1 or -1. -/
def pmOne (t : Tile) : Prop := ∀ i j, t.current i j = 1 ∨ t.current i j = -1

lemma iterStep_pmOne (beta gammaValue : ℝ) (t : Tile) (r c : Int) (remote : Int) (u : ℝ)
    (h : pmOne t) : pmOne (iterStep beta gammaValue t r c remote u) := by
  unfold iterStep
  split
  · intro i j
    simp only [flipPixel]
    split
    · rcases h i j with h1 | h1 <;> rw [h1] <;> simp
    · exact h i j
  · exact h

/-- C3: if every pixel of the initial current matrix is in {-1, +1}, then
after any number of sampler iterations every pixel of the current matrix is
still in {-1, +1}: the only mutation of current is the flip that negates one
pixel. -/
theorem runIters_pmOne (beta gammaValue : ℝ) (t : Tile)
    (choices : List (Int × Int × Int × ℝ)) (h : pmOne t) :
    pmOne (runIters beta gammaValue t choices) := by
  induction choices generalizing t with
  | nil => exact h
  | cons ch rest ih =>
    obtain ⟨r, c, remote, u⟩ := ch
    exact ih _ (iterStep_pmOne beta gammaValue t r c remote u h)

theorem runIters_pmOne_witness :
    (runIters 1 1 onesTile [(0, 0, 0, (1 : ℝ))]).current 0 0 = 1 ∨
      (runIters 1 1 onesTile [(0, 0, 0, (1 : ℝ))]).current 0 0 = -1 :=
  runIters_pmOne 1 1 onesTile [(0, 0, 0, (1 : ℝ))] (fun _ _ => Or.inl rfl) 0 0

lemma summer_nonneg (img : Int → Int → Int) (rows columns rc cc : Int)
    (hpos : ∀ i j, 0 ≤ img i j) : 0 ≤ summer img rows columns rc cc := by
  unfold summer
  apply List.sum_nonneg
  intro x hx
  simp only [List.mem_map] at hx
  obtain ⟨i, -, rfl⟩ := hx
  split
  · apply List.sum_nonneg
    intro y hy
    simp only [List.mem_map] at hy
    obtain ⟨j, -, rfl⟩ := hy
    split
    · split
      · exact hpos _ _
      · exact le_refl 0
    · exact le_refl 0
  · exact le_refl 0

/-- C5 (amended): with observed and current both uniformly +1 and beta > 0,
gamma > 0, every proposal has deltaE strictly negative, so a proposal whose
random value is u = 1 (ln u = 0) is rejected; the claim that no flip is ever
accepted with probability 1 is nevertheless false, because values of u with
ln(u) ≤ deltaE are attainable (see the counterexample theorem). -/
theorem allOnes_deltaE_neg (beta gammaValue : ℝ) (t : Tile) (r c : Int) (remote : Int)
    (hb : 0 < beta) (hg : 0 < gammaValue)
    (hobs : t.observed r c = 1) (hcur : ∀ i j, t.current i j = 1)
    (hrem : 0 ≤ remote) :
    deltaE beta gammaValue (t.observed r c) (t.current r c)
        (summer t.current t.rows t.columns r c + remote) < 0 ∧
      iterStep beta gammaValue t r c remote 1 = t := by
  have hsum : 0 ≤ summer t.current t.rows t.columns r c + remote := by
    have h1 : 0 ≤ summer t.current t.rows t.columns r c :=
      summer_nonneg _ _ _ _ _ (fun i j => by rw [hcur i j]; norm_num)
    omega
  have hde : deltaE beta gammaValue (t.observed r c) (t.current r c)
      (summer t.current t.rows t.columns r c + remote) < 0 := by
    unfold deltaE
    rw [hobs, hcur r c]
    have hc : (0 : ℝ) ≤ (summer t.current t.rows t.columns r c : ℝ) + (remote : ℝ) := by
      exact_mod_cast hsum
    push_cast
    nlinarith [mul_nonneg hb.le hc]
  refine ⟨hde, ?_⟩
  unfold iterStep
  rw [if_neg]
  rw [Real.log_one]
  linarith

theorem allOnes_deltaE_neg_witness :
    deltaE 1 1 (onesTile.observed 0 0) (onesTile.current 0 0)
        (summer onesTile.current onesTile.rows onesTile.columns 0 0 + 0) < 0 ∧
      iterStep 1 1 onesTile 0 0 0 1 = onesTile :=
  allOnes_deltaE_neg 1 1 onesTile 0 0 0 (by norm_num) (by norm_num) rfl
    (fun _ _ => rfl) (le_refl 0)

/-- C5 counterexample: with beta = gamma = 1 > 0 and a tile whose observed and
current pixels are uniformly +1, the proposal at pixel (0, 0) with the
attainable random value u = randomProbability 268435455 (about 1/8, so
ln u < -2 = deltaE) is accepted and flips the pixel: a flip does satisfy the
acceptance criterion, so the final image fails to equal the initial image on
a possible (positive-probability) run. -/
theorem roundTrip_law_violated :
    (iterStep 1 1 onesTile 0 0 0 ((randomProbability 268435455 : ℚ) : ℝ)).current 0 0 = -1 ∧
      onesTile.current 0 0 = 1 ∧
      (0 : ℚ) < randomProbability 268435455 ∧ randomProbability 268435455 ≤ 1 := by
  refine ⟨?_, rfl, by norm_num [randomProbability, C_RAND_MAX], by norm_num [randomProbability, C_RAND_MAX]⟩
  have hsum : summer onesTile.current onesTile.rows onesTile.columns 0 0 + 0 = 0 := by decide
  have hu : ((randomProbability 268435455 : ℚ) : ℝ) = 268435455 / 2147483647 := by
    norm_num [randomProbability, C_RAND_MAX]
  have hlog : Real.log ((randomProbability 268435455 : ℚ) : ℝ) ≤ -2 := by
    rw [hu]
    have h18 : (268435455 : ℝ) / 2147483647 ≤ 1 / 8 := by norm_num
    have hpos : (0 : ℝ) < 268435455 / 2147483647 := by norm_num
    have hmono : Real.log ((268435455 : ℝ) / 2147483647) ≤ Real.log (1 / 8) :=
      Real.log_le_log hpos h18
    have h8 : Real.log ((1 : ℝ) / 8) = -(3 * Real.log 2) := by
      rw [one_div, Real.log_inv, show ((8 : ℝ)) = 2 ^ (3 : ℕ) by norm_num, Real.log_pow]
      push_cast
      ring
    have h2 : (0.6931471803 : ℝ) < Real.log 2 := Real.log_two_gt_d9
    rw [h8] at hmono
    nlinarith
  have hde : deltaE 1 1 (onesTile.observed 0 0) (onesTile.current 0 0)
      (summer onesTile.current onesTile.rows onesTile.columns 0 0 + 0) = -2 := by
    rw [hsum]
    show deltaE 1 1 1 1 0 = -2
    unfold deltaE
    push_cast
    ring
  unfold iterStep
  rw [if_pos (by rw [hde]; exact hlog)]
  simp [flipPixel, onesTile]

/-- Translation of testFinishedAll (lines 260-269): true exactly when, for
every direction with an existing neighbour, both the FINISHED send posted to
it and the FINISHED receive posted for it have completed (MPI_Testall over
both arrays; vacuously true when no neighbour exists). -/
def testFinishedAll (neighbours : Direction → Bool) (reqDone resDone : Direction → Bool) : Bool :=
  decide (∀ d, neighbours d = true → reqDone d = true ∧ resDone d = true)

/-- Observable events of the slave after its iteration budget is exhausted. -/
inductive SlaveEv
  | answerAllEv
  | sendFinalRow (i : ℕ)
  | exited
  deriving DecidableEq, Repr

/-- Translation of lines 455-468: after sendFinishedAll has posted one
FINISHED send and one FINISHED receive per existing neighbour, the slave
loops, probing testFinishedAll; while the probe fails it calls answerAll and
probes again; once the probe succeeds it sends its final tile rows to the
master and exits.  The schedule sched gives, for each probe instant t and
direction d, whether the FINISHED send (first component) and the FINISHED
receive (second component) for d have completed; fuel bounds the number of
probes modelled. -/
def finishPhase (neighbours : Direction → Bool) (sched : ℕ → Direction → Bool × Bool)
    (rows : ℕ) : ℕ → ℕ → List SlaveEv
  | 0, _ => []
  | fuel + 1, t =>
    if testFinishedAll neighbours (fun d => (sched t d).1) (fun d => (sched t d).2) then
      (List.range rows).map SlaveEv.sendFinalRow ++ [SlaveEv.exited]
    else
      SlaveEv.answerAllEv :: finishPhase neighbours sched rows fuel (t + 1)

/-- C4: the slave never sends a final tile row and never exits before a probe
at which every existing neighbour has completed both its FINISHED send and its
FINISHED receive; every earlier probe failed, and every event emitted before
that probe is a call to answerAll, so still-in-flight neighbour questions
continue to be answered while waiting. -/
theorem finish_only_after_handshake (neighbours : Direction → Bool)
    (sched : ℕ → Direction → Bool × Bool) (rows fuel t : ℕ) (e : SlaveEv)
    (he : e ∈ finishPhase neighbours sched rows fuel t) (hne : e ≠ SlaveEv.answerAllEv) :
    ∃ n, testFinishedAll neighbours (fun d => (sched (t + n) d).1) (fun d => (sched (t + n) d).2) = true ∧
      (∀ m < n, testFinishedAll neighbours (fun d => (sched (t + m) d).1) (fun d => (sched (t + m) d).2) = false) ∧
      (finishPhase neighbours sched rows fuel t).take n = List.replicate n SlaveEv.answerAllEv := by
  induction fuel generalizing t with
  | zero => simp [finishPhase] at he
  | succ fuel ih =>
    rw [finishPhase] at he ⊢
    by_cases htest : testFinishedAll neighbours (fun d => (sched t d).1) (fun d => (sched t d).2) = true
    · exact ⟨0, by simpa using htest, by omega, by simp⟩
    · rw [if_neg htest] at he ⊢
      rcases List.mem_cons.mp he with h | h
      · exact absurd h hne
      · obtain ⟨n, hn1, hn2, hn3⟩ := ih (t + 1) h
        refine ⟨n + 1, ?_, ?_, ?_⟩
        · rw [show t + (n + 1) = t + 1 + n by omega]
          exact hn1
        · intro m hm
          cases m with
          | zero => simpa using Bool.eq_false_iff.mpr (fun hh => htest hh)
          | succ m =>
            rw [show t + (m + 1) = t + 1 + m by omega]
            exact hn2 m (by omega)
        · rw [List.take_succ_cons, hn3, List.replicate_succ]

def nbNone : Direction → Bool := fun _ => false

def schedNone : ℕ → Direction → Bool × Bool := fun _ _ => (false, false)

theorem finish_only_after_handshake_witness :
    (SlaveEv.sendFinalRow 0 ∈ finishPhase nbNone schedNone 1 1 0) ∧
      (SlaveEv.sendFinalRow 0 ≠ SlaveEv.answerAllEv) ∧
      ∃ n, testFinishedAll nbNone (fun d => (schedNone (0 + n) d).1) (fun d => (schedNone (0 + n) d).2) = true ∧
        (∀ m < n, testFinishedAll nbNone (fun d => (schedNone (0 + m) d).1) (fun d => (schedNone (0 + m) d).2) = false) ∧
        (finishPhase nbNone schedNone 1 1 0).take n = List.replicate n SlaveEv.answerAllEv :=
  ⟨by decide, by decide,
    finish_only_after_handshake nbNone schedNone 1 1 0 (SlaveEv.sendFinalRow 0)
      (by decide) (by decide)⟩

/-- State of the per-direction outbound ANSWER reply handle of answerAll:
replyHandle models answerResponses[direction] (none when NULL), postedCount
counts the ANSWER sends posted so far in this direction, completedCount those
whose handles have been waited on and reclaimed. -/
structure ReplyState where
  replyHandle : Option ℕ
  postedCount : ℕ
  completedCount : ℕ
  deriving DecidableEq, Repr

def initialReplyState : ReplyState := ⟨none, 0, 0⟩

/-- One pass of answerAll (lines 175-222) for a single direction: when the
standing question receive has completed, first, if a previous reply send is
still in flight, wait for it and reclaim its handle (lines 180-184), and only
then post the new non-blocking ANSWER send (lines 220-221). -/
def answerStep (s : ReplyState) (questionArrived : Bool) : ReplyState :=
  if questionArrived then
    let s1 := match s.replyHandle with
      | some _ => { s with replyHandle := none, completedCount := s.completedCount + 1 }
      | none => s
    { s1 with replyHandle := some s1.postedCount, postedCount := s1.postedCount + 1 }
  else s

/-- Number of posted but not yet reclaimed ANSWER sends in this direction. -/
def inFlightReplies (s : ReplyState) : ℕ := s.postedCount - s.completedCount

/-- The reply-handle bookkeeping invariant: the posted sends exceed the
reclaimed ones by exactly one when a handle is held, zero otherwise. -/
def replyInv (s : ReplyState) : Prop :=
  s.postedCount = s.completedCount + (if s.replyHandle.isSome then 1 else 0)

lemma answerStep_replyInv (s : ReplyState) (q : Bool) (h : replyInv s) :
    replyInv (answerStep s q) := by
  unfold answerStep
  cases q with
  | false => simpa using h
  | true =>
    unfold replyInv at h ⊢
    cases hrh : s.replyHandle with
    | none => simp [hrh] at h ⊢; omega
    | some handle => simp [hrh] at h ⊢; omega

lemma foldl_answerStep_replyInv (qs : List Bool) (s : ReplyState) (h : replyInv s) :
    replyInv (qs.foldl answerStep s) := by
  induction qs generalizing s with
  | nil => exact h
  | cons q rest ih => exact ih _ (answerStep_replyInv s q h)

/-- C7: across any sequence of answerAll passes, at most one ANSWER reply
send per direction is ever in flight: the engine waits for the previous reply
send in that direction and reclaims its handle before posting a new one, so
the posted sends never exceed the reclaimed ones by more than one. -/
theorem at_most_one_reply_in_flight (qs : List Bool) :
    inFlightReplies (qs.foldl answerStep initialReplyState) ≤ 1 := by
  have h := foldl_answerStep_replyInv qs initialReplyState (by rfl)
  unfold replyInv at h
  unfold inFlightReplies
  split at h <;> omega

/-- Translation of askAsync (lines 283-295) restricted to what it posts: a
single QUESTION carrying the given position when the neighbour in the given
direction exists, nothing when the neighbour slot is -1. -/
def optAsk (neighbours : Direction → Bool) (d : Direction) (p : Int) : List (Direction × Int) :=
  if neighbours d then [(d, p)] else []

/-- The outgoing questions posted for the sampled pixel (r, c) in one
iteration, in the order of lines 404-435. -/
def askList (neighbours : Direction → Bool) (rows columns r c : Int) : List (Direction × Int) :=
  (if r = 0 then
      optAsk neighbours .top c ++
        (if c = 0 then optAsk neighbours .topLeft 0 else []) ++
        (if c = columns - 1 then optAsk neighbours .topRight 0 else [])
    else []) ++
  (if r = rows - 1 then
      optAsk neighbours .bottom c ++
        (if c = 0 then optAsk neighbours .bottomLeft 0 else []) ++
        (if c = columns - 1 then optAsk neighbours .bottomRight 0 else [])
    else []) ++
  (if c = 0 then optAsk neighbours .left r else []) ++
  (if c = columns - 1 then optAsk neighbours .right r else [])

/-- The set of questions required by the specification for pixel (r, c). -/
def askSpec (neighbours : Direction → Bool) (rows columns r c : Int) : Direction → Int → Prop
  | .top, p => neighbours .top = true ∧ r = 0 ∧ p = c
  | .topLeft, p => neighbours .topLeft = true ∧ r = 0 ∧ c = 0 ∧ p = 0
  | .topRight, p => neighbours .topRight = true ∧ r = 0 ∧ c = columns - 1 ∧ p = 0
  | .bottom, p => neighbours .bottom = true ∧ r = rows - 1 ∧ p = c
  | .bottomLeft, p => neighbours .bottomLeft = true ∧ r = rows - 1 ∧ c = 0 ∧ p = 0
  | .bottomRight, p => neighbours .bottomRight = true ∧ r = rows - 1 ∧ c = columns - 1 ∧ p = 0
  | .left, p => neighbours .left = true ∧ c = 0 ∧ p = r
  | .right, p => neighbours .right = true ∧ c = columns - 1 ∧ p = r

lemma mem_optAsk (neighbours : Direction → Bool) (d : Direction) (p : Int) (x : Direction × Int) :
    x ∈ optAsk neighbours d p ↔ neighbours d = true ∧ x = (d, p) := by
  unfold optAsk
  split <;> simp_all

/-- C8: in every iteration the outgoing questions posted for the sampled
pixel (r, c) are exactly TOP with position c when r = 0 (plus TOP_LEFT with
position 0 when also c = 0 and TOP_RIGHT with position 0 when also
c = columns - 1), BOTTOM with position c when r = rows - 1 (plus BOTTOM_LEFT
and BOTTOM_RIGHT with position 0 analogously), LEFT with position r when
c = 0 and RIGHT with position r when c = columns - 1, each ask skipped when
the neighbour in that direction is absent. -/
theorem askList_mem_iff (neighbours : Direction → Bool) (rows columns r c : Int)
    (d : Direction) (p : Int) :
    (d, p) ∈ askList neighbours rows columns r c ↔ askSpec neighbours rows columns r c d p := by
  cases d <;>
    (unfold askList askSpec
     by_cases h1 : r = 0 <;> by_cases h2 : r = rows - 1 <;>
       by_cases h3 : c = 0 <;> by_cases h4 : c = columns - 1 <;>
       simp [h1, h2, h3, h4, mem_optAsk, Prod.mk.injEq] <;>
       tauto)

/-- Total iteration budget of the program (line 11). -/
def TOTAL_ITERATIONS : ℕ := 5000000

/-- Line 353: iterations = TOTAL_ITERATIONS / (world_size - 1), C integer
division; each rank other than the master runs this many sampler
iterations. -/
def slaveIterations (world_size : ℕ) : ℕ := TOTAL_ITERATIONS / (world_size - 1)

/-- The total number of proposals across the whole run: world_size - 1 ranks
run slave, each performing slaveIterations world_size iterations. -/
def totalProposals (world_size : ℕ) : ℕ := (world_size - 1) * slaveIterations world_size

/-- C6 counterexample: with world_size = 3 (two workers) each worker performs
2,500,000 iterations, so the total across all workers is 5,000,000, not
5,000,000 divided by the number of workers. -/
theorem totalProposals_ne_div :
    slaveIterations 3 = 2500000 ∧ totalProposals 3 = 5000000 ∧
      totalProposals 3 ≠ TOTAL_ITERATIONS / (3 - 1) := by
  refine ⟨by norm_num [slaveIterations, TOTAL_ITERATIONS], ?_, ?_⟩ <;>
    norm_num [totalProposals, slaveIterations, TOTAL_ITERATIONS]

/-- C6 (amended): each worker performs exactly
TOTAL_ITERATIONS / (world_size - 1) sampler iterations, where world_size - 1
is the number of workers (rank 0 is the coordinator and does not sample); the
total number of proposals across all workers is therefore
(world_size - 1) * (TOTAL_ITERATIONS / (world_size - 1)), which differs from
TOTAL_ITERATIONS divided by the number of workers whenever there are at least
two workers and at most TOTAL_ITERATIONS of them. -/
theorem iteration_budget (w : ℕ) (hw : 3 ≤ w) (hle : w - 1 ≤ TOTAL_ITERATIONS) :
    slaveIterations w = TOTAL_ITERATIONS / (w - 1) ∧
      totalProposals w = (w - 1) * (TOTAL_ITERATIONS / (w - 1)) ∧
      totalProposals w ≠ TOTAL_ITERATIONS / (w - 1) := by
  refine ⟨rfl, rfl, ?_⟩
  unfold totalProposals slaveIterations
  have hq : 1 ≤ TOTAL_ITERATIONS / (w - 1) :=
    (Nat.one_le_div_iff (by omega)).mpr hle
  intro heq
  have h2 : 2 ≤ w - 1 := by omega
  nlinarith [heq, hq, h2]

theorem iteration_budget_witness :
    slaveIterations 3 = TOTAL_ITERATIONS / (3 - 1) ∧
      totalProposals 3 = (3 - 1) * (TOTAL_ITERATIONS / (3 - 1)) ∧
      totalProposals 3 ≠ TOTAL_ITERATIONS / (3 - 1) :=
  iteration_budget 3 (by norm_num) (by norm_num [TOTAL_ITERATIONS])

/-- Observable events of the master process (lines 500-637). -/
inductive MasterEv
  | reportRowError
  | sendConfig (slaveRank : ℕ)
  | sendImageRow (rowNumber : ℕ)
  | recvFinalRow (rowNumber : ℕ)
  | writeOutput
  | exitThread
  deriving DecidableEq, Repr

/-- The N define of line 14, bounding the image-row send loop of line 592. -/
def IMAGE_N : ℕ := 8

/-- Events of the master after the divisibility check: the per-slave
configuration sends (lines 566-587), the image-row sends (lines 592-600), the
final-row receives (lines 606-613), the output write (lines 621-630) and the
closing pthread_exit (line 635). -/
def masterPhases (world_size rowCount : ℕ) : List MasterEv :=
  ((List.range (world_size - 1)).map (fun i => MasterEv.sendConfig (i + 1)) ++
    (List.range IMAGE_N).map MasterEv.sendImageRow ++
    (List.range rowCount).map MasterEv.recvFinalRow ++
    [MasterEv.writeOutput]) ++ [MasterEv.exitThread]

/-- Modelled from the spec: the source never assigns rowCount or columnCount
(both stay 0, an inoperability the specification records in its open
questions), so the image row count is taken here as a parameter standing for
the dimension the coordinator is meant to determine.  The event trace of the
master: when rowsPerSlave * slaveCount differs from rowCount (lines 552-560,
with rowsPerSlave = rowCount / slaveCount and slaveCount = world_size - 1) an
error report is written to standard error, and in every case control falls
through to the send, receive and write phases. -/
def masterEvents (world_size rowCount : ℕ) : List MasterEv :=
  (if rowCount / (world_size - 1) * (world_size - 1) ≠ rowCount then [MasterEv.reportRowError]
   else []) ++ masterPhases world_size rowCount

/-- C9 counterexample: with world_size = 3 and an image of 5 rows (5 not
divisible by the 2 workers) the master reports the row error and then simply
continues: the very next event is the first configuration send, and the trace
ends with the normal pthread_exit rather than a non-zero process exit. -/
theorem rowError_does_not_abort :
    (masterEvents 3 5).take 2 = [MasterEv.reportRowError, MasterEv.sendConfig 1] ∧
      (masterEvents 3 5).getLast? = some MasterEv.exitThread := by
  constructor <;> decide

/-- C9 (amended): when the image row count is not divisible by the number of
workers, the coordinator reports the error to standard error but does not
exit: the trace continues with the full send, receive and write phases and
terminates through the normal pthread_exit, and no non-zero exit happens on
this path. -/
theorem rowError_reports_and_continues (world_size rowCount : ℕ)
    (h : rowCount / (world_size - 1) * (world_size - 1) ≠ rowCount) :
    masterEvents world_size rowCount = MasterEv.reportRowError :: masterPhases world_size rowCount ∧
      masterPhases world_size rowCount ≠ [] ∧
      (masterEvents world_size rowCount).getLast? = some MasterEv.exitThread := by
  refine ⟨by simp [masterEvents, h], by simp [masterPhases], ?_⟩
  unfold masterEvents masterPhases
  rw [← List.append_assoc, List.getLast?_concat]

theorem rowError_reports_and_continues_witness :
    masterEvents 3 5 = MasterEv.reportRowError :: masterPhases 3 5 ∧
      masterPhases 3 5 ≠ [] ∧
      (masterEvents 3 5).getLast? = some MasterEv.exitThread :=
  rowError_reports_and_continues 3 5 (by norm_num)

/-- Translation of testAskAll (lines 304-313): with askReqResCount
outstanding question/answer pairs, true exactly when all the posted question
sends and all the posted answer receives have completed; with a count of
zero, immediately true. -/
def testAskAll (askReqResCount : ℕ) (reqDone resDone : ℕ → Bool) : Bool :=
  (decide (∀ i < askReqResCount, reqDone i = true)) &&
    (decide (∀ i < askReqResCount, resDone i = true))

/-- Translation of askResult (lines 324-338): the sum of the collected answer
values of the askReqResCount outstanding pairs, draining the count to zero. -/
def askResult (askReqResCount : ℕ) (vals : ℕ → Int) : Int :=
  ∑ i ∈ Finset.range askReqResCount, vals i

/-- C10: when the sampled pixel (r, c) touches no tile edge
(0 < r < rows - 1 and 0 < c < columns - 1), no QUESTION is posted, the
outstanding-query count stays zero so testAskAll succeeds immediately, the
collected remote sum is zero, and the iteration outcome is determined by the
workers own tile alone. -/
theorem interior_pixel_no_questions (neighbours : Direction → Bool) (rows columns r c : Int)
    (beta gammaValue : ℝ) (t : Tile) (u : ℝ) (reqDone resDone : ℕ → Bool) (vals : ℕ → Int)
    (h1 : 0 < r) (h2 : r < rows - 1) (h3 : 0 < c) (h4 : c < columns - 1) :
    askList neighbours rows columns r c = [] ∧
      testAskAll 0 reqDone resDone = true ∧
      askResult 0 vals = 0 ∧
      iterStep beta gammaValue t r c (askResult 0 vals) u =
        (if Real.log u ≤ deltaE beta gammaValue (t.observed r c) (t.current r c)
            (summer t.current t.rows t.columns r c) then flipPixel t r c else t) := by
  have hr0 : r ≠ 0 := by omega
  have hr1 : r ≠ rows - 1 := by omega
  have hc0 : c ≠ 0 := by omega
  have hc1 : c ≠ columns - 1 := by omega
  have hask : askResult 0 vals = 0 := by simp [askResult]
  refine ⟨by simp [askList, hr0, hr1, hc0, hc1], ?_, hask, ?_⟩
  · unfold testAskAll
    simp only [Bool.and_eq_true, decide_eq_true_eq]
    exact ⟨fun i hi => absurd hi (by omega), fun i hi => absurd hi (by omega)⟩
  · rw [hask]
    unfold iterStep
    rw [add_zero]

def tile3 : Tile := ⟨3, 3, fun _ _ => 1, fun _ _ => 1⟩

theorem interior_pixel_no_questions_witness :
    askList (fun _ => true) 3 3 1 1 = [] ∧
      testAskAll 0 (fun _ => true) (fun _ => true) = true ∧
      askResult 0 (fun _ => 0) = 0 ∧
      iterStep 1 1 tile3 1 1 (askResult 0 (fun _ => 0)) 1 =
        (if Real.log 1 ≤ deltaE 1 1 (tile3.observed 1 1) (tile3.current 1 1)
            (summer tile3.current tile3.rows tile3.columns 1 1) then flipPixel tile3 1 1
         else tile3) :=
  interior_pixel_no_questions (fun _ => true) 3 3 1 1 1 1 tile3 1
    (fun _ => true) (fun _ => true) (fun _ => 0)
    (by norm_num) (by norm_num) (by norm_num) (by norm_num)

end Denoiser
